import Mathlib

/-
Shallow embedding of the aws-photos-backup incremental backup orchestrator
(cmd/photos_backup.go and the photosbackup package: upload state ledger,
FindNewPhotos, GroupPhotosByYearMonth, and the per-group zip/upload/verify
worker body).

Modelling conventions:
- Timestamps are Nat seconds (Go time.Time truncated to second precision,
  which is the precision every comparison and key in this code uses).
- getPhotoMeta is an opaque collaborator: an FsEntry carries the result of
  resolving it (`none` = the open error case in which getPhotoMeta returns a
  non-nil error); GroupPhotosByYearMonth re-resolves through a pure oracle
  `String -> Option MediaMeta`.
- The Go format "20060102T150405" of a second-truncated time is injective on
  the times this program handles, so the dedup identity key
  (formatted timestamp, base filename) is modelled as the pair (ts, base).
- The concurrent worker goroutine body (photos_backup.go lines 119-191) is
  embedded as the sequential trace of its observable events, each event
  annotated with the set of mutexes held at that point, exactly as the Go
  code acquires them (mu around the failure counters, progressMu around the
  progress bar state, nothing else).
-/

/-- Result of resolving a file's metadata: EXIF capture time, falling back to
modification time (photosbackup.getPhotoMeta).  `ts` is the second-precision
Taken time; `year`/`month` are its calendar decomposition as returned by Go's
Year()/Month(). -/
structure MediaMeta where
  ts : Nat
  year : Nat
  month : Nat
deriving DecidableEq, Repr

/-- One entry seen by filepath.WalkDir: its path, base filename
(filepath.Base), extension as filepath.Ext returns it (case preserved),
whether it is a directory, and the result of getPhotoMeta on it (`none` when
getPhotoMeta returns an error, i.e. the file could not be opened). -/
structure FsEntry where
  path : String
  base : String
  ext : String
  isDir : Bool
  meta : Option MediaMeta
deriving DecidableEq, Repr

/-- ASCII lower-casing of one character, as Go's strings.ToLower acts on the
ASCII file extensions and storage-class names this program compares. -/
def asciiLowerChar (c : Char) : Char :=
  if 65 ≤ c.toNat ∧ c.toNat ≤ 90 then Char.ofNat (c.toNat + 32) else c

/-- ASCII upper-casing of one character (strings.ToUpper on ASCII input). -/
def asciiUpperChar (c : Char) : Char :=
  if 97 ≤ c.toNat ∧ c.toNat ≤ 122 then Char.ofNat (c.toNat - 32) else c

/-- strings.ToLower on the ASCII strings this program lowers. -/
def asciiLower (s : String) : String := String.mk (s.data.map asciiLowerChar)

/-- strings.ToUpper on the ASCII strings this program uppers. -/
def asciiUpper (s : String) : String := String.mk (s.data.map asciiUpperChar)

/-- Case-insensitive extension allow-check: FindNewPhotos lowers every
configured extension into the `allowed` set and looks up the lowered
extension of the walked path. -/
def allowedCheck (allowedExts : List String) (e : FsEntry) : Bool :=
  (allowedExts.map asciiLower).contains (asciiLower e.ext)

/-- Eligibility test `meta.Taken.After(since)`: strictly after the
watermark. -/
def eligibleTs (since ts : Nat) : Bool := decide (since < ts)

/-- Dedup identity key inside FindNewPhotos:
`fmt.Sprintf("%s-%s", meta.Taken.Format("20060102T150405"), filepath.Base(path))`,
modelled as the pair (second-precision timestamp, base filename). -/
def scanKey (m : MediaMeta) (e : FsEntry) : Nat × String := (m.ts, e.base)

/-- Accumulated state of the FindNewPhotos walk: kept files in scan order,
the `seen` dedup key set, one list element per excluded file (its lowered
extension, so counts are list counts), the paths handed to getPhotoMeta, and
the paths dropped with a duplicate warning. -/
structure ScanState where
  files : List FsEntry
  seen : List (Nat × String)
  excluded : List String
  resolved : List String
  dupWarned : List String
deriving DecidableEq, Repr

def initScan : ScanState := ⟨[], [], [], [], []⟩

/-- One step of the WalkDir callback in FindNewPhotos (part_001 lines
133-153): allowed non-directory entries are metadata-resolved, then kept iff
strictly newer than the watermark and their dedup key is unseen; other
non-directory entries only bump the exclusion count for their extension. -/
def scanStep (allowedExts : List String) (since : Nat) (st : ScanState)
    (e : FsEntry) : ScanState :=
  if !e.isDir && allowedCheck allowedExts e then
    let st1 := { st with resolved := st.resolved ++ [e.path] }
    match e.meta with
    | some m =>
      if eligibleTs since m.ts then
        if st1.seen.contains (scanKey m e) then
          { st1 with dupWarned := st1.dupWarned ++ [e.path] }
        else
          { st1 with files := st1.files ++ [e], seen := scanKey m e :: st1.seen }
      else st1
    | none => st1
  else if !e.isDir then
    { st with excluded := st.excluded ++ [asciiLower e.ext] }
  else st

/-- FindNewPhotos: fold the walk callback over the entries in scan order. -/
def FindNewPhotos (allowedExts : List String) (since : Nat)
    (entries : List FsEntry) : ScanState :=
  entries.foldl (scanStep allowedExts since) initScan

/-- Zero-pad a number to a minimum width, as Go's %0*d does for
non-negative arguments. -/
def padNum (w n : Nat) : String :=
  String.mk (List.replicate (w - (toString n).length) '0') ++ toString n

/-- Group key `fmt.Sprintf("%04d-%02d", meta.Taken.Year(), meta.Taken.Month())`. -/
def ymKey (year month : Nat) : String := padNum 4 year ++ "-" ++ padNum 2 month

/-- The group key GroupPhotosByYearMonth derives for a file, `none` when
getPhotoMeta fails on it (the `continue` branch that drops the file). -/
def groupKeyOf (metaF : String → Option MediaMeta) (f : String) :
    Option String :=
  (metaF f).map (fun m => ymKey m.year m.month)

/-- The member list `result[k]` of one group: the input files whose derived
key is k, in input order (Go appends in iteration order). -/
def groupMembers (metaF : String → Option MediaMeta) (files : List String)
    (k : String) : List String :=
  files.filter (fun f => decide (groupKeyOf metaF f = some k))

/-- GroupPhotosByYearMonth as a keyed partition: the list of
(key, members) pairs, keys in first-occurrence order (one valid
sequentialization of Go's map). -/
def GroupPhotosByYearMonth (metaF : String → Option MediaMeta)
    (files : List String) : List (String × List String) :=
  ((files.filterMap (groupKeyOf metaF)).dedup).map
    (fun k => (k, groupMembers metaF files k))

/-- The two mutexes of photos_backup.go's main: `mu` guards the failure
counters failedZips/failedUploads; `progressMu` guards the progress bar
state.  No other lock exists in the program. -/
inductive LockId where
  | mu
  | progressMu
deriving DecidableEq, Repr

/-- Observable events of one worker goroutine body
(photos_backup.go lines 119-191). -/
inductive Ev where
  | zipCall
  | zipFailIncr
  | progressIncr
  | uploadCall (attempt : Nat)
  | sleep (units : Nat)
  | uploadFailIncr
  | verifyLocal
  | verifyRemote
  | ledgerMapUpdate
  | ledgerSave
  | progressRender
  | removeArchive
deriving DecidableEq, Repr

/-- A trace of events, each annotated with the mutexes held while it
executes. -/
abbrev Trace := List (Ev × List LockId)

/-- The retry loop `for attempt := 1; attempt <= 3; attempt++`: each failed
attempt logs a warning and then sleeps `attempt` seconds before the loop
condition is re-tested — including the final failed attempt.  `ok a` is
whether UploadToS3 succeeds on attempt a.  Returns the trace of upload calls
and sleeps, and whether the loop exited via break (success). -/
def retryFrom (ok : Nat → Bool) : Nat → Nat → Trace × Bool
  | _, 0 => ([], false)
  | a, fuel + 1 =>
    if ok a then ([(Ev.uploadCall a, [])], true)
    else
      let r := retryFrom ok (a + 1) fuel
      ((Ev.uploadCall a, []) :: (Ev.sleep a, []) :: r.1, r.2)

/-- The upload retry loop as instantiated in main: attempts 1, 2, 3. -/
def uploadRetry (ok : Nat → Bool) : Trace × Bool := retryFrom ok 1 3

/-- The cold-tier test of photos_backup.go lines 165-166:
`strings.ToUpper(cfg.StorageClass)` equal to GLACIER or DEEP_ARCHIVE. -/
def isColdTier (sc : String) : Bool :=
  asciiUpper sc == "GLACIER" || asciiUpper sc == "DEEP_ARCHIVE"

/-- The checksum verification block (lines 164-182): skipped for cold tiers;
otherwise FileSHA256 is computed, and only when that succeeds is the remote
S3SHA256 fetched.  Every outcome (error, mismatch, match) is only logged. -/
def verifyTrace (sc : String) (localSum remoteSum : Option String) : Trace :=
  if isColdTier sc then []
  else
    match localSum with
    | none => [(Ev.verifyLocal, [])]
    | some _ =>
      match remoteSum with
      | none => [(Ev.verifyLocal, []), (Ev.verifyRemote, [])]
      | some _ => [(Ev.verifyLocal, []), (Ev.verifyRemote, [])]

/-- The external collaborators of one group's worker: whether ZipFiles
succeeds, the number of member files (driving the per-file progress loop),
which upload attempts succeed, and the local/remote checksum results
(`none` = the corresponding hash computation or fetch errors out). -/
structure GroupOracle where
  zipOk : Bool
  nFiles : Nat
  uploadOk : Nat → Bool
  localSum : Option String
  remoteSum : Option String

/-- The worker goroutine body for one group (photos_backup.go lines
119-191), as the trace of its events with the locks held at each:
zip; on zip failure increment failedZips under mu and return;
per-file progress increments under progressMu; the upload retry loop;
on retry exhaustion increment failedUploads under mu and return (no ledger
write, no archive removal); otherwise verification, then the ledger map
update and SaveUploadState — with no lock held — the final progress render
under progressMu, and os.Remove of the local zip. -/
def workerBody (o : GroupOracle) (sc : String) : Trace :=
  (Ev.zipCall, []) ::
    (if !o.zipOk then [(Ev.zipFailIncr, [LockId.mu])]
     else
       List.replicate o.nFiles (Ev.progressIncr, [LockId.progressMu]) ++
         (let u := uploadRetry o.uploadOk
          u.1 ++
            (if !u.2 then [(Ev.uploadFailIncr, [LockId.mu])]
             else
               verifyTrace sc o.localSum o.remoteSum ++
                 [(Ev.ledgerMapUpdate, []), (Ev.ledgerSave, []),
                  (Ev.progressRender, [LockId.progressMu]),
                  (Ev.removeArchive, [])])))

def countZipCalls (tr : Trace) : Nat :=
  (tr.filter (fun p => p.1 == Ev.zipCall)).length

def countUploadCalls (tr : Trace) : Nat :=
  (tr.filter (fun p =>
    match p.1 with | Ev.uploadCall _ => true | _ => false)).length

def sleepsOf (tr : Trace) : List Nat :=
  tr.filterMap (fun p => match p.1 with | Ev.sleep n => some n | _ => none)

def countZipFailIncr (tr : Trace) : Nat :=
  (tr.filter (fun p => p.1 == Ev.zipFailIncr)).length

def countUploadFailIncr (tr : Trace) : Nat :=
  (tr.filter (fun p => p.1 == Ev.uploadFailIncr)).length

def ledgerSaved (tr : Trace) : Bool :=
  tr.any (fun p => p.1 == Ev.ledgerSave)

def archiveRemoved (tr : Trace) : Bool :=
  tr.any (fun p => p.1 == Ev.removeArchive)

def verifyAttempted (tr : Trace) : Bool :=
  tr.any (fun p => p.1 == Ev.verifyLocal)

/-- The events that happen after the last upload attempt of a trace. -/
def eventsAfterLastUploadCall (tr : Trace) : List Ev :=
  ((tr.map Prod.fst).reverse.takeWhile
    (fun e => match e with | Ev.uploadCall _ => false | _ => true)).reverse

/-- The group fan-out loop of main (lines 113-192): a group whose key is in
the ledger's CompletedMonths is skipped before any worker is spawned; every
other group runs the worker body. -/
def processRun (ledger : List String) (groups : List (String × List String))
    (orc : String → GroupOracle) (sc : String) : List (String × Trace) :=
  groups.filterMap (fun g =>
    if ledger.contains g.1 then none else some (g.1, workerBody (orc g.1) sc))

/-- The groups skipped by the resume check. -/
def skippedGroups (ledger : List String)
    (groups : List (String × List String)) : List String :=
  (groups.filter (fun g => ledger.contains g.1)).map Prod.fst

def totalZipCalls (rs : List (String × Trace)) : Nat :=
  (rs.map (fun r => countZipCalls r.2)).sum

def totalUploadCalls (rs : List (String × Trace)) : Nat :=
  (rs.map (fun r => countUploadCalls r.2)).sum

/-- The group keys whose worker reached the ledger write. -/
def completedKeys (rs : List (String × Trace)) : List String :=
  (rs.filter (fun r => ledgerSaved r.2)).map Prod.fst

/-- Result of one whole run of main. -/
structure RunResult where
  eligible : List String
  groups : List (String × List String)
  results : List (String × Trace)
  ledgerAfter : List String
  watermarkAfter : Nat
deriving Repr

/-- One run of main over a source tree: FindNewPhotos with the current
watermark, GroupPhotosByYearMonth, the fan-out with ledger skip, the ledger
extended by the completed groups, and then — line 196, after wg.Wait() —
UpdateLastUploadTime unconditionally writes time.Now() (`endTime`) to the
watermark file, whether or not any group failed. -/
def runBackup (metaF : String → Option MediaMeta) (entries : List FsEntry)
    (allowedExts : List String) (wm : Nat) (ledger : List String)
    (orc : String → GroupOracle) (sc : String) (endTime : Nat) : RunResult :=
  let scan := FindNewPhotos allowedExts wm entries
  let files := scan.files.map (fun e => e.path)
  let groups := GroupPhotosByYearMonth metaF files
  let results := processRun ledger groups orc sc
  { eligible := files
    groups := groups
    results := results
    ledgerAfter := ledger ++ completedKeys results
    watermarkAfter := endTime }

/-- What happens when LoadUploadState opens the state file: the file does
not exist; the open fails for another reason; or the file opens and its
content either decodes to a ledger map or fails to decode (`none`). -/
inductive OpenResult where
  | notExist
  | openFail (msg : String)
  | opened (decoded : Option (List (String × String)))

/-- LoadUploadState (part_000 lines 12-24): a missing file yields the empty
state with nil error; any other open error is returned with a nil state; a
decode error from json.Decoder.Decode is discarded (its return value is
ignored) and the state — still the empty map it was initialized to — is
returned with nil error. -/
def LoadUploadState :
    OpenResult → Option (List (String × String)) × Option String
  | .notExist => (some [], none)
  | .openFail m => (none, some m)
  | .opened d => (some (d.getD []), none)

/-- Derived characterization of the branch of scanStep that keeps an entry:
non-directory, allowed extension, metadata resolved, strictly after the
watermark, and dedup key unseen so far. -/
def keptCond (A : List String) (wm : Nat) (st : ScanState) (e : FsEntry) :
    Bool :=
  !e.isDir && allowedCheck A e &&
    (match e.meta with
     | some m => eligibleTs wm m.ts && !st.seen.contains (scanKey m e)
     | none => false)

/-- The dedup keys of a list of kept entries. -/
def keysOf (l : List FsEntry) : List (Nat × String) :=
  l.filterMap (fun e => e.meta.map (fun m => scanKey m e))

/-- Example fixture: a single media file resolved to 2024-03, second 100. -/
def exEntry : FsEntry := ⟨"lib/2024/p.jpg", "p.jpg", ".jpg", false, some ⟨100, 2024, 3⟩⟩

/-- Metadata oracle agreeing with exEntry. -/
def exMeta : String → Option MediaMeta :=
  fun p => if p == "lib/2024/p.jpg" then some ⟨100, 2024, 3⟩ else none

/-- Collaborators for a group whose zip succeeds and whose upload fails on
every attempt. -/
def failOrc : String → GroupOracle :=
  fun _ => ⟨true, 1, fun _ => false, some "h", some "h"⟩

/-- Collaborators for a group where everything succeeds first try. -/
def okOracle : GroupOracle := ⟨true, 1, fun _ => true, some "h", some "h"⟩

/-- Collaborators whose upload fails twice and succeeds on the third call. -/
def thirdTryOracle : GroupOracle := ⟨true, 1, fun a => a == 3, some "h", some "h"⟩

/-- Collaborators whose upload fails on all three attempts. -/
def allFailOracle : GroupOracle := ⟨true, 1, fun _ => false, some "h", some "h"⟩

/-- Two distinct files, in different subdirectories, with the same
second-precision resolved timestamp and the same base filename. -/
def dupE1 : FsEntry := ⟨"a/p.jpg", "p.jpg", ".jpg", false, some ⟨50, 2024, 3⟩⟩

/-- Second of the duplicate pair, later in scan order. -/
def dupE2 : FsEntry := ⟨"b/p.jpg", "p.jpg", ".jpg", false, some ⟨50, 2024, 3⟩⟩

/-- C10: LoadUploadState never reports corruption — for an existing,
readable state file whose content does not decode, the decode error is
discarded and a non-nil (empty) state is returned with a nil error; an
error is returned only when the open fails for a reason other than
non-existence; a missing file yields the empty state and nil error. -/
theorem load_state_swallows_corruption :
    (∀ d, ((LoadUploadState (.opened d)).1).isSome = true ∧
       (LoadUploadState (.opened d)).2 = none) ∧
    (LoadUploadState (.opened none)).1 = some [] ∧
    (∀ m, LoadUploadState (.openFail m) = (none, some m)) ∧
    LoadUploadState .notExist = (some [], none) := by
  refine ⟨fun d => ⟨?_, rfl⟩, rfl, fun m => rfl, rfl⟩
  cases d <;> rfl

/-- C7: Watermark filtering is strict-after — an allowed entry is eligible
iff its resolved timestamp is strictly greater than the watermark; a
timestamp equal to the watermark is excluded, one a second later is
included, and with a zero watermark every entry with a positive resolved
timestamp is eligible; at the scan level a single allowed entry is kept iff
its timestamp is strictly after the watermark. -/
theorem watermark_strict_after (A : List String) (wm ts : Nat) (e : FsEntry)
    (m : MediaMeta) (hd : e.isDir = false) (ha : allowedCheck A e = true)
    (hm : e.meta = some m) :
    (eligibleTs wm ts = true ↔ wm < ts) ∧
    eligibleTs wm wm = false ∧
    eligibleTs wm (wm + 1) = true ∧
    (0 < ts → eligibleTs 0 ts = true) ∧
    (FindNewPhotos A wm [e]).files = (if wm < m.ts then [e] else []) := by
  refine ⟨by simp [eligibleTs], by simp [eligibleTs], by simp [eligibleTs],
    fun h => by simp [eligibleTs, h], ?_⟩
  by_cases h : wm < m.ts <;>
    simp [FindNewPhotos, scanStep, initScan, hd, ha, hm, eligibleTs, h]

/-- Witness for watermark_strict_after at the allowed fixture entry with
watermark 60 and timestamp 100. -/
theorem watermark_strict_after_witness :
    (eligibleTs 60 100 = true ↔ 60 < 100) ∧
    eligibleTs 60 60 = false ∧
    eligibleTs 60 61 = true ∧
    (0 < 100 → eligibleTs 0 100 = true) ∧
    (FindNewPhotos [".jpg"] 60 [exEntry]).files =
      (if 60 < (100 : Nat) then [exEntry] else []) :=
  watermark_strict_after [".jpg"] 60 100 exEntry ⟨100, 2024, 3⟩
    (by decide) (by decide) (by decide)

/-- C1: Idempotent resume — when the loaded ledger already contains every
group key, no worker is spawned at all: zero ZipFiles calls, zero group
archive uploads, and every group is skipped before entering the pipeline. -/
theorem resume_skips_all (ledger : List String)
    (groups : List (String × List String)) (orc : String → GroupOracle)
    (sc : String) (h : ∀ g ∈ groups, ledger.contains g.1 = true) :
    processRun ledger groups orc sc = [] ∧
    totalZipCalls (processRun ledger groups orc sc) = 0 ∧
    totalUploadCalls (processRun ledger groups orc sc) = 0 ∧
    skippedGroups ledger groups = groups.map Prod.fst := by
  have hp : processRun ledger groups orc sc = [] := by
    rw [processRun, List.filterMap_eq_nil_iff]
    intro g hg
    rw [if_pos (h g hg)]
  refine ⟨hp, by rw [hp]; rfl, by rw [hp]; rfl, ?_⟩
  rw [skippedGroups, List.filter_eq_self.mpr fun g hg => h g hg]

/-- Witness for resume_skips_all: a ledger holding both group keys of a
two-group run. -/
theorem resume_skips_all_witness :
    processRun ["2024-03", "2024-04"]
        [("2024-03", ["a/p.jpg"]), ("2024-04", ["b/q.jpg"])]
        failOrc "STANDARD" = [] ∧
    totalZipCalls (processRun ["2024-03", "2024-04"]
        [("2024-03", ["a/p.jpg"]), ("2024-04", ["b/q.jpg"])]
        failOrc "STANDARD") = 0 ∧
    totalUploadCalls (processRun ["2024-03", "2024-04"]
        [("2024-03", ["a/p.jpg"]), ("2024-04", ["b/q.jpg"])]
        failOrc "STANDARD") = 0 ∧
    skippedGroups ["2024-03", "2024-04"]
        [("2024-03", ["a/p.jpg"]), ("2024-04", ["b/q.jpg"])] =
      [("2024-03", ["a/p.jpg"]), ("2024-04", ["b/q.jpg"])].map Prod.fst :=
  resume_skips_all ["2024-03", "2024-04"]
    [("2024-03", ["a/p.jpg"]), ("2024-04", ["b/q.jpg"])]
    failOrc "STANDARD" (by decide)

/-- C2: the worker body of a successfully completed group, evaluated: the
in-memory ledger map update and the SaveUploadState call carry an empty
lock set — `mu` is acquired only around the failure counters and
`progressMu` only around the progress bar — so the ledger write is NOT
performed under a lock shared with other concurrent group-completions,
contrary to the claim (the save is, as claimed, synchronous and immediately
after completion). -/
theorem ledger_write_unlocked :
    workerBody okOracle "STANDARD" =
      [(Ev.zipCall, []), (Ev.progressIncr, [LockId.progressMu]),
       (Ev.uploadCall 1, []), (Ev.verifyLocal, []), (Ev.verifyRemote, []),
       (Ev.ledgerMapUpdate, []), (Ev.ledgerSave, []),
       (Ev.progressRender, [LockId.progressMu]), (Ev.removeArchive, [])] := by
  decide

/-- C3: a run whose single group fails every upload attempt writes no
ledger entry (as the claim says) — but line 196 still advances the
watermark to the run's end time, so the next run over the unmodified tree
finds no eligible files at all and never re-attempts the failed group's
build or upload, contradicting the retried-on-next-run guarantee. -/
theorem failed_group_not_retried :
    totalZipCalls (runBackup exMeta [exEntry] [".jpg"] 0 [] failOrc
        "STANDARD" 200).results = 1 ∧
    totalUploadCalls (runBackup exMeta [exEntry] [".jpg"] 0 [] failOrc
        "STANDARD" 200).results = 3 ∧
    (runBackup exMeta [exEntry] [".jpg"] 0 [] failOrc "STANDARD" 200).ledgerAfter
      = [] ∧
    (runBackup exMeta [exEntry] [".jpg"] 0 [] failOrc "STANDARD" 200).watermarkAfter
      = 200 ∧
    (runBackup exMeta [exEntry] [".jpg"]
        (runBackup exMeta [exEntry] [".jpg"] 0 [] failOrc "STANDARD" 200).watermarkAfter
        (runBackup exMeta [exEntry] [".jpg"] 0 [] failOrc "STANDARD" 200).ledgerAfter
        failOrc "STANDARD" 300).eligible = [] ∧
    totalZipCalls (runBackup exMeta [exEntry] [".jpg"]
        (runBackup exMeta [exEntry] [".jpg"] 0 [] failOrc "STANDARD" 200).watermarkAfter
        (runBackup exMeta [exEntry] [".jpg"] 0 [] failOrc "STANDARD" 200).ledgerAfter
        failOrc "STANDARD" 300).results = 0 ∧
    totalUploadCalls (runBackup exMeta [exEntry] [".jpg"]
        (runBackup exMeta [exEntry] [".jpg"] 0 [] failOrc "STANDARD" 200).watermarkAfter
        (runBackup exMeta [exEntry] [".jpg"] 0 [] failOrc "STANDARD" 200).ledgerAfter
        failOrc "STANDARD" 300).results = 0 := by
  decide

/-- C4 counterexample: when all three upload attempts fail, the trace of
the worker contains a sleep of 3 time-units AFTER the final (third) upload
attempt — the loop body sleeps before re-testing the loop condition — so
the claimed "no wait after the final attempt" is false; the full wait
sequence is [1, 2, 3], not [1, 2]. -/
theorem upload_wait_after_final_attempt :
    Ev.sleep 3 ∈ eventsAfterLastUploadCall (workerBody allFailOracle "STANDARD") ∧
    sleepsOf (workerBody allFailOracle "STANDARD") = [1, 2, 3] := by
  decide

theorem countUploadCalls_append (a b : Trace) :
    countUploadCalls (a ++ b) = countUploadCalls a + countUploadCalls b := by
  simp [countUploadCalls, List.filter_append]

theorem countUploadCalls_cons_zip (tr : Trace) :
    countUploadCalls ((Ev.zipCall, ([] : List LockId)) :: tr) =
      countUploadCalls tr := by
  simp [countUploadCalls]

theorem countUploadCalls_replicate_progress (n : Nat) :
    countUploadCalls
      (List.replicate n (Ev.progressIncr, [LockId.progressMu])) = 0 := by
  induction n with
  | zero => rfl
  | succ n ih => simp [countUploadCalls, List.replicate_succ, List.filter] at ih ⊢

/-- Every event of the retry loop is an upload call or a sleep, with no
lock held. -/
theorem retryFrom_events (ok : Nat → Bool) (a fuel : Nat) :
    ∀ p ∈ (retryFrom ok a fuel).1,
      (∃ n, p = (Ev.uploadCall n, ([] : List LockId))) ∨
        ∃ n, p = (Ev.sleep n, ([] : List LockId)) := by
  induction fuel generalizing a with
  | zero => simp [retryFrom]
  | succ fuel ih =>
    intro p hp
    rw [retryFrom] at hp
    by_cases h : ok a = true
    · rw [if_pos h] at hp
      simp only [List.mem_singleton] at hp
      exact Or.inl ⟨a, hp⟩
    · rw [if_neg h] at hp
      simp only [List.mem_cons] at hp
      rcases hp with hp | hp | hp
      · exact Or.inl ⟨a, hp⟩
      · exact Or.inr ⟨a, hp⟩
      · exact ih (a + 1) p hp

/-- The retry loop makes at most `fuel` upload calls. -/
theorem retryFrom_calls_le (ok : Nat → Bool) (a fuel : Nat) :
    countUploadCalls (retryFrom ok a fuel).1 ≤ fuel := by
  induction fuel generalizing a with
  | zero => simp [retryFrom, countUploadCalls]
  | succ fuel ih =>
    rw [retryFrom]
    by_cases h : ok a = true
    · rw [if_pos h]
      simp [countUploadCalls]
    · rw [if_neg h]
      simp only [countUploadCalls, List.filter, List.length_cons]
      calc (List.filter _ (retryFrom ok (a + 1) fuel).1).length + 1
          ≤ fuel + 1 := Nat.succ_le_succ (ih (a + 1))

/-- Every event of the verification block is a local or remote checksum
step. -/
theorem verifyTrace_events (sc : String) (l r : Option String) :
    ∀ p ∈ verifyTrace sc l r,
      p = (Ev.verifyLocal, ([] : List LockId)) ∨
        p = (Ev.verifyRemote, ([] : List LockId)) := by
  intro p hp
  rw [verifyTrace.eq_def] at hp
  by_cases h : isColdTier sc = true
  · rw [if_pos h] at hp
    simp at hp
  · rw [if_neg h] at hp
    rcases l with _ | l
    · simp only [List.mem_singleton] at hp
      exact Or.inl hp
    · rcases r with _ | r <;>
        simp only [List.mem_cons, List.not_mem_nil, or_false] at hp <;>
        rcases hp with hp | hp <;> simp [hp]

/-- C4 amended: for every group the upload is attempted at most 3 times,
with a wait of `attempt` time-units after EACH failed attempt — including
the final one, so on total failure the waits are [1, 2, 3] with the last
after the third attempt (the claim's "no wait after the final attempt"
holds only when the final attempt succeeds); a collaborator failing exactly
twice then succeeding on the third call reaches Completed (ledger written,
archive deleted) with no failure-counter increment and waits [1, 2]; one
failing on all three calls causes exactly one failed-upload increment, no
ledger entry, and the local archive is not deleted. -/
theorem upload_retry_policy (o : GroupOracle) (sc : String) :
    countUploadCalls (workerBody o sc) ≤ 3 ∧
    (ledgerSaved (workerBody thirdTryOracle "STANDARD") = true ∧
     countUploadFailIncr (workerBody thirdTryOracle "STANDARD") = 0 ∧
     sleepsOf (workerBody thirdTryOracle "STANDARD") = [1, 2] ∧
     countUploadCalls (workerBody thirdTryOracle "STANDARD") = 3 ∧
     archiveRemoved (workerBody thirdTryOracle "STANDARD") = true) ∧
    (countUploadFailIncr (workerBody allFailOracle "STANDARD") = 1 ∧
     ledgerSaved (workerBody allFailOracle "STANDARD") = false ∧
     archiveRemoved (workerBody allFailOracle "STANDARD") = false ∧
     sleepsOf (workerBody allFailOracle "STANDARD") = [1, 2, 3] ∧
     countUploadCalls (workerBody allFailOracle "STANDARD") = 3) := by
  refine ⟨?_, by decide, by decide⟩
  rw [workerBody]
  by_cases hz : o.zipOk
  · simp only [hz, Bool.not_true, Bool.false_eq_true, if_false]
    rw [countUploadCalls_cons_zip, countUploadCalls_append,
      countUploadCalls_replicate_progress, countUploadCalls_append]
    have h1 : countUploadCalls (uploadRetry o.uploadOk).1 ≤ 3 :=
      retryFrom_calls_le o.uploadOk 1 3
    have h2 : countUploadCalls
        (if (!(uploadRetry o.uploadOk).2) = true
         then [(Ev.uploadFailIncr, [LockId.mu])]
         else verifyTrace sc o.localSum o.remoteSum ++
           [(Ev.ledgerMapUpdate, []), (Ev.ledgerSave, []),
            (Ev.progressRender, [LockId.progressMu]),
            (Ev.removeArchive, [])]) = 0 := by
      split
      · rfl
      · rw [countUploadCalls_append]
        have hv : countUploadCalls (verifyTrace sc o.localSum o.remoteSum) = 0 := by
          rw [countUploadCalls, List.length_eq_zero, List.filter_eq_nil_iff]
          intro p hp
          rcases verifyTrace_events sc o.localSum o.remoteSum p hp with h | h <;>
            simp [h]
        rw [hv]
        rfl
    omega
  · simp only [hz, Bool.not_false, if_true]
    simp [countUploadCalls, List.filter]

theorem trace_any_replicate (n : Nat) (x : Ev × List LockId)
    (p : Ev × List LockId → Bool) (h : p x = false) :
    (List.replicate n x).any p = false := by
  induction n with
  | zero => rfl
  | succ n ih => simp [List.replicate_succ, h, ih]

theorem retryFrom_any_false (ok : Nat → Bool) (a fuel : Nat)
    (p : Ev × List LockId → Bool)
    (h1 : ∀ n, p (Ev.uploadCall n, []) = false)
    (h2 : ∀ n, p (Ev.sleep n, []) = false) :
    ((retryFrom ok a fuel).1).any p = false := by
  rw [List.any_eq_false]
  intro x hx
  rcases retryFrom_events ok a fuel x hx with ⟨n, rfl⟩ | ⟨n, rfl⟩ <;>
    simp [h1, h2]

theorem verifyTrace_any_false (sc : String) (l r : Option String)
    (p : Ev × List LockId → Bool)
    (h1 : p (Ev.verifyLocal, []) = false)
    (h2 : p (Ev.verifyRemote, []) = false) :
    (verifyTrace sc l r).any p = false := by
  rw [List.any_eq_false]
  intro x hx
  rcases verifyTrace_events sc l r x hx with rfl | rfl <;> simp [h1, h2]

/-- C5: verification is advisory and skipped for cold tiers — for a group
whose zip and upload succeed, a storage class whose upper-casing is GLACIER
or DEEP_ARCHIVE skips the checksum step entirely; otherwise it is
attempted; and whatever the local/remote checksum results are (error,
mismatch, or match), the group still completes: the ledger entry is
written, the local archive is deleted, and no failure counter is
incremented. -/
theorem verification_advisory (o : GroupOracle) (sc : String)
    (hz : o.zipOk = true) (hu : (uploadRetry o.uploadOk).2 = true) :
    ledgerSaved (workerBody o sc) = true ∧
    archiveRemoved (workerBody o sc) = true ∧
    countUploadFailIncr (workerBody o sc) = 0 ∧
    countZipFailIncr (workerBody o sc) = 0 ∧
    ((asciiUpper sc = "GLACIER" ∨ asciiUpper sc = "DEEP_ARCHIVE") →
       verifyAttempted (workerBody o sc) = false) ∧
    (asciiUpper sc ≠ "GLACIER" → asciiUpper sc ≠ "DEEP_ARCHIVE" →
       verifyAttempted (workerBody o sc) = true) := by
  rw [workerBody]
  simp only [hz, Bool.not_true, Bool.false_eq_true, if_false, hu,
    Bool.not_true, Bool.false_eq_true, if_false]
  refine ⟨?_, ?_, ?_, ?_, ?_, ?_⟩
  · simp [ledgerSaved, List.any_append]
  · simp [archiveRemoved, List.any_append]
  · rw [countUploadFailIncr, List.length_eq_zero, List.filter_eq_nil_iff]
    intro p hp
    simp only [List.mem_cons, List.mem_append] at hp
    rcases hp with rfl | hp
    · simp
    rcases hp with hp | hp
    · rcases List.eq_of_mem_replicate hp with rfl
      simp
    rcases hp with hp | hp
    · rcases retryFrom_events o.uploadOk 1 3 p hp with ⟨n, rfl⟩ | ⟨n, rfl⟩ <;>
        simp
    rcases hp with hp | hp
    · rcases verifyTrace_events sc o.localSum o.remoteSum p hp with rfl | rfl <;>
        simp
    · simp only [List.mem_cons, List.not_mem_nil, or_false] at hp
      rcases hp with rfl | rfl | rfl | rfl <;> simp
  · rw [countZipFailIncr, List.length_eq_zero, List.filter_eq_nil_iff]
    intro p hp
    simp only [List.mem_cons, List.mem_append] at hp
    rcases hp with rfl | hp
    · simp
    rcases hp with hp | hp
    · rcases List.eq_of_mem_replicate hp with rfl
      simp
    rcases hp with hp | hp
    · rcases retryFrom_events o.uploadOk 1 3 p hp with ⟨n, rfl⟩ | ⟨n, rfl⟩ <;>
        simp
    rcases hp with hp | hp
    · rcases verifyTrace_events sc o.localSum o.remoteSum p hp with rfl | rfl <;>
        simp
    · simp only [List.mem_cons, List.not_mem_nil, or_false] at hp
      rcases hp with rfl | rfl | rfl | rfl <;> simp
  · intro hcold
    have hc : isColdTier sc = true := by
      rcases hcold with h | h <;> simp [isColdTier, h]
    simp only [verifyAttempted, List.any_cons, List.any_append, uploadRetry]
    rw [verifyTrace.eq_def, if_pos hc]
    rw [retryFrom_any_false o.uploadOk 1 3 _ (by simp) (by simp)]
    simp
  · intro h1 h2
    have hc : isColdTier sc = false := by
      simp [isColdTier, h1, h2]
    simp only [verifyAttempted, List.any_cons, List.any_append]
    rw [verifyTrace.eq_def, if_neg (by simp [hc])]
    rcases o.localSum with _ | l
    · simp
    · rcases o.remoteSum with _ | r <;> simp

/-- Witness for verification_advisory: a group with mismatching local and
remote checksums still completes; a lowercase "glacier" storage class skips
verification, STANDARD attempts it. -/
theorem verification_advisory_witness :
    ledgerSaved (workerBody ⟨true, 1, fun _ => true, some "aa", some "bb"⟩
      "glacier") = true ∧
    verifyAttempted (workerBody ⟨true, 1, fun _ => true, some "aa", some "bb"⟩
      "glacier") = false ∧
    verifyAttempted (workerBody ⟨true, 1, fun _ => true, some "aa", some "bb"⟩
      "STANDARD") = true ∧
    archiveRemoved (workerBody ⟨true, 1, fun _ => true, some "aa", some "bb"⟩
      "STANDARD") = true :=
  ⟨(verification_advisory _ "glacier" (by decide) (by decide)).1,
   (verification_advisory _ "glacier" (by decide) (by decide)).2.2.2.2.1
     (Or.inl (by decide)),
   (verification_advisory _ "STANDARD" (by decide) (by decide)).2.2.2.2.2
     (by decide) (by decide),
   (verification_advisory _ "STANDARD" (by decide) (by decide)).2.1⟩

/-- C6: grouping totality — when the metadata oracle succeeds on every
input file (which holds for the eligible, de-duplicated files handed over
by FindNewPhotos), every file belongs to exactly one group, that group's
key is the zero-padded 4-digit year, a hyphen, and the zero-padded 2-digit
month of the file's resolved timestamp, each group's members are drawn from
the input, and the GroupPhotosByYearMonth partition lists exactly those
member sets. -/
theorem grouping_total (metaF : String → Option MediaMeta)
    (files : List String) (h : ∀ f ∈ files, (metaF f).isSome = true) :
    (∀ f ∈ files, ∃! k, f ∈ groupMembers metaF files k) ∧
    (∀ k f, f ∈ groupMembers metaF files k →
       f ∈ files ∧ groupKeyOf metaF f = some k) ∧
    (∀ f m, f ∈ files → metaF f = some m →
       f ∈ groupMembers metaF files (ymKey m.year m.month)) ∧
    (∀ g ∈ GroupPhotosByYearMonth metaF files,
       g.2 = groupMembers metaF files g.1) := by
  refine ⟨?_, ?_, ?_, ?_⟩
  · intro f hf
    rcases Option.isSome_iff_exists.mp (h f hf) with ⟨m, hm⟩
    refine ⟨ymKey m.year m.month, ?_, ?_⟩
    · show f ∈ groupMembers metaF files (ymKey m.year m.month)
      rw [groupMembers.eq_def, List.mem_filter]
      exact ⟨hf, by simp [groupKeyOf, hm]⟩
    · intro k hk
      have hk2 : f ∈ groupMembers metaF files k := hk
      rw [groupMembers.eq_def, List.mem_filter] at hk2
      have := of_decide_eq_true hk2.2
      rw [groupKeyOf, hm] at this
      simpa using this.symm
  · intro k f hf
    rw [groupMembers.eq_def, List.mem_filter] at hf
    exact ⟨hf.1, of_decide_eq_true hf.2⟩
  · intro f m hf hm
    rw [groupMembers.eq_def, List.mem_filter]
    exact ⟨hf, by simp [groupKeyOf, hm]⟩
  · intro g hg
    rw [GroupPhotosByYearMonth.eq_def] at hg
    rcases List.mem_map.mp hg with ⟨k, _, rfl⟩
    rfl

/-- Witness for grouping_total: one file resolved to March 2024 lands in
exactly the group keyed "2024-03". -/
theorem grouping_total_witness :
    "lib/2024/p.jpg" ∈ groupMembers exMeta ["lib/2024/p.jpg"] (ymKey 2024 3) ∧
    GroupPhotosByYearMonth exMeta ["lib/2024/p.jpg"] =
      [("2024-03", ["lib/2024/p.jpg"])] :=
  ⟨(grouping_total exMeta ["lib/2024/p.jpg"] (by decide)).2.2.1
     "lib/2024/p.jpg" ⟨100, 2024, 3⟩ (by decide) (by decide),
   by decide⟩

theorem keptCond_iff (A : List String) (wm : Nat) (st : ScanState)
    (e : FsEntry) :
    keptCond A wm st e = true ↔
      e.isDir = false ∧ allowedCheck A e = true ∧
        ∃ m, e.meta = some m ∧ eligibleTs wm m.ts = true ∧
          st.seen.contains (scanKey m e) = false := by
  cases hm : e.meta with
  | none => simp [keptCond, hm]
  | some m => simp [keptCond, hm, and_assoc]

theorem scanStep_not_kept (A : List String) (wm : Nat) (st : ScanState)
    (e : FsEntry) (h : ¬keptCond A wm st e = true) :
    (scanStep A wm st e).files = st.files ∧
      (scanStep A wm st e).seen = st.seen := by
  by_cases h1 : e.isDir
  · simp [scanStep, h1]
  · by_cases h2 : allowedCheck A e
    · cases hm : e.meta with
      | none => simp [scanStep, h1, h2, hm]
      | some m =>
        by_cases h3 : eligibleTs wm m.ts
        · by_cases h4 : st.seen.contains (scanKey m e)
          · have h4m : scanKey m e ∈ st.seen := by
              simpa [List.contains] using h4
            simp [scanStep, h1, h2, hm, h3, h4m]
          · have h4m : scanKey m e ∉ st.seen := by
              simpa [List.contains] using h4
            exact absurd (by simp [keptCond, hm, h1, h2, h3, h4m]) h
        · simp [scanStep, h1, h2, hm, h3]
    · simp [scanStep, h1, h2]

theorem scanStep_kept (A : List String) (wm : Nat) (st : ScanState)
    (e : FsEntry) (m : MediaMeta) (hm : e.meta = some m)
    (h1 : e.isDir = false) (h2 : allowedCheck A e = true)
    (h3 : eligibleTs wm m.ts = true)
    (h4 : st.seen.contains (scanKey m e) = false) :
    (scanStep A wm st e).files = st.files ++ [e] ∧
      (scanStep A wm st e).seen = scanKey m e :: st.seen := by
  have h4m : scanKey m e ∉ st.seen := by
    simpa [List.contains] using h4
  simp [scanStep, hm, h1, h2, h3, h4m]

theorem keysOf_append (a b : List FsEntry) :
    keysOf (a ++ b) = keysOf a ++ keysOf b := by
  simp [keysOf, List.filterMap_append]

theorem keysOf_singleton (e : FsEntry) (m : MediaMeta) (hm : e.meta = some m) :
    keysOf [e] = [scanKey m e] := by
  simp [keysOf, hm]

theorem scanStep_inv (A : List String) (wm : Nat) (st : ScanState)
    (e : FsEntry) (h1 : ∀ k, k ∈ st.seen ↔ k ∈ keysOf st.files)
    (h2 : (keysOf st.files).Nodup) :
    (∀ k, k ∈ (scanStep A wm st e).seen ↔
       k ∈ keysOf (scanStep A wm st e).files) ∧
      (keysOf (scanStep A wm st e).files).Nodup := by
  by_cases hk : keptCond A wm st e = true
  · rcases (keptCond_iff A wm st e).mp hk with ⟨hd, ha, m, hm, he, hs⟩
    rcases scanStep_kept A wm st e m hm hd ha he hs with ⟨hf, hsn⟩
    have hkey : keysOf (scanStep A wm st e).files
        = keysOf st.files ++ [scanKey m e] := by
      rw [hf, keysOf_append, keysOf_singleton e m hm]
    have hnotmem : scanKey m e ∉ keysOf st.files := by
      intro hmem
      have hmem2 : scanKey m e ∈ st.seen := (h1 _).mpr hmem
      have : scanKey m e ∉ st.seen := by simpa [List.contains] using hs
      exact this hmem2
    constructor
    · intro k
      rw [hkey, hsn]
      simp only [List.mem_cons, List.mem_append, List.mem_singleton, h1 k]
      tauto
    · rw [hkey]
      exact List.Nodup.append h2 (List.nodup_singleton _)
        (by simpa [List.disjoint_singleton] using hnotmem)
  · rcases scanStep_not_kept A wm st e hk with ⟨hf, hsn⟩
    rw [hf, hsn]
    exact ⟨h1, h2⟩

theorem scan_inv (A : List String) (wm : Nat) (es : List FsEntry) :
    ∀ st : ScanState, (∀ k, k ∈ st.seen ↔ k ∈ keysOf st.files) →
      (keysOf st.files).Nodup →
      (∀ k, k ∈ (es.foldl (scanStep A wm) st).seen ↔
         k ∈ keysOf (es.foldl (scanStep A wm) st).files) ∧
        (keysOf (es.foldl (scanStep A wm) st).files).Nodup := by
  induction es with
  | nil => exact fun st h1 h2 => ⟨h1, h2⟩
  | cons e es ih =>
    intro st h1 h2
    rw [List.foldl_cons]
    exact ih _ (scanStep_inv A wm st e h1 h2).1 (scanStep_inv A wm st e h1 h2).2

theorem scanStep_keys_sub (A : List String) (wm : Nat) (st : ScanState)
    (e : FsEntry) : ∀ x ∈ keysOf st.files, x ∈ keysOf (scanStep A wm st e).files := by
  intro x hx
  by_cases hk : keptCond A wm st e = true
  · rcases (keptCond_iff A wm st e).mp hk with ⟨hd, ha, m, hm, he, hs⟩
    rw [(scanStep_kept A wm st e m hm hd ha he hs).1, keysOf_append]
    exact List.mem_append_left _ hx
  · rw [(scanStep_not_kept A wm st e hk).1]
    exact hx

theorem scan_keys_mono (A : List String) (wm : Nat) (es : List FsEntry) :
    ∀ st : ScanState, ∀ x ∈ keysOf st.files,
      x ∈ keysOf ((es.foldl (scanStep A wm) st)).files := by
  induction es with
  | nil => exact fun st x hx => hx
  | cons e es ih =>
    intro st x hx
    rw [List.foldl_cons]
    exact ih _ x (scanStep_keys_sub A wm st e x hx)

theorem scan_covers (A : List String) (wm : Nat) (es : List FsEntry) :
    ∀ st : ScanState, (∀ k, k ∈ st.seen ↔ k ∈ keysOf st.files) →
      (keysOf st.files).Nodup →
      ∀ e ∈ es, ∀ m, e.meta = some m → e.isDir = false →
        allowedCheck A e = true → eligibleTs wm m.ts = true →
        scanKey m e ∈ keysOf ((es.foldl (scanStep A wm) st)).files := by
  induction es with
  | nil => intro st _ _ e he; exact absurd he (List.not_mem_nil e)
  | cons e0 es ih =>
    intro st h1 h2 e he m hm hd ha hel
    rw [List.foldl_cons]
    rcases List.mem_cons.mp he with rfl | he2
    · by_cases hs : st.seen.contains (scanKey m e) = true
      · have hmem : scanKey m e ∈ keysOf st.files := by
          refine (h1 _).mp ?_
          simpa [List.contains] using hs
        exact scan_keys_mono A wm es _ _
          (scanStep_keys_sub A wm st e _ hmem)
      · have hs2 : st.seen.contains (scanKey m e) = false := by
          revert hs
          cases st.seen.contains (scanKey m e) <;> simp
        have hmem : scanKey m e ∈ keysOf (scanStep A wm st e).files := by
          rw [(scanStep_kept A wm st e m hm hd ha hel hs2).1, keysOf_append,
            keysOf_singleton e m hm]
          simp
        exact scan_keys_mono A wm es _ _ hmem
    · exact ih _ (scanStep_inv A wm st e0 h1 h2).1
        (scanStep_inv A wm st e0 h1 h2).2 e he2 m hm hd ha hel

/-- C8: deduplication by (second-precision timestamp, base name) — the kept
files of FindNewPhotos have pairwise distinct identity keys (no duplicate
survives), every allowed, watermark-eligible entry of the scan has its key
represented among the kept files (the first occurrence is kept), and two
distinct files with the same resolved timestamp and base filename in
different subdirectories yield exactly one eligible entry: the first in
scan order, the second dropped with a duplicate warning. -/
theorem dedup_first_kept (A : List String) (wm : Nat) (es : List FsEntry) :
    (keysOf (FindNewPhotos A wm es).files).Nodup ∧
    (∀ e ∈ es, ∀ m, e.meta = some m → e.isDir = false →
       allowedCheck A e = true → eligibleTs wm m.ts = true →
       scanKey m e ∈ keysOf (FindNewPhotos A wm es).files) ∧
    (FindNewPhotos [".jpg"] 0 [dupE1, dupE2]).files = [dupE1] ∧
    (FindNewPhotos [".jpg"] 0 [dupE1, dupE2]).dupWarned = ["b/p.jpg"] := by
  refine ⟨?_, ?_, by decide, by decide⟩
  · exact (scan_inv A wm es initScan (by simp [initScan, keysOf])
      (by simp [initScan, keysOf])).2
  · intro e he m hm hd ha hel
    exact scan_covers A wm es initScan (by simp [initScan, keysOf])
      (by simp [initScan, keysOf]) e he m hm hd ha hel

/-- Witness for dedup_first_kept: the duplicate pair fixture — keys of the
kept files are distinct and the duplicated key survives. -/
theorem dedup_first_kept_witness :
    (keysOf (FindNewPhotos [".jpg"] 0 [dupE1, dupE2]).files).Nodup ∧
    (50, "p.jpg") ∈ keysOf (FindNewPhotos [".jpg"] 0 [dupE1, dupE2]).files :=
  ⟨(dedup_first_kept [".jpg"] 0 [dupE1, dupE2]).1,
   (dedup_first_kept [".jpg"] 0 [dupE1, dupE2]).2.1 dupE2 (by decide)
     ⟨50, 2024, 3⟩ (by decide) (by decide) (by decide) (by decide)⟩

theorem scanStep_excluded_eq (A : List String) (wm : Nat) (st : ScanState)
    (e : FsEntry) :
    (scanStep A wm st e).excluded = st.excluded ++
      (if e.isDir = false ∧ allowedCheck A e = false
       then [asciiLower e.ext] else []) := by
  by_cases h1 : e.isDir
  · simp [scanStep, h1]
  · by_cases h2 : allowedCheck A e
    · cases hm : e.meta with
      | none => simp [scanStep, h1, h2, hm]
      | some m =>
        by_cases h3 : eligibleTs wm m.ts
        · by_cases h4m : scanKey m e ∈ st.seen <;>
            simp [scanStep, h1, h2, hm, h3, h4m]
        · simp [scanStep, h1, h2, hm, h3]
    · simp [scanStep, h1, h2]

theorem scanStep_resolved_eq (A : List String) (wm : Nat) (st : ScanState)
    (e : FsEntry) :
    (scanStep A wm st e).resolved = st.resolved ++
      (if e.isDir = false ∧ allowedCheck A e = true
       then [e.path] else []) := by
  by_cases h1 : e.isDir
  · simp [scanStep, h1]
  · by_cases h2 : allowedCheck A e
    · cases hm : e.meta with
      | none => simp [scanStep, h1, h2, hm]
      | some m =>
        by_cases h3 : eligibleTs wm m.ts
        · by_cases h4m : scanKey m e ∈ st.seen <;>
            simp [scanStep, h1, h2, hm, h3, h4m]
        · simp [scanStep, h1, h2, hm, h3]
    · simp [scanStep, h1, h2]

theorem scanStep_files_le (A : List String) (wm : Nat) (st : ScanState)
    (e : FsEntry) :
    (scanStep A wm st e).files.length ≤ st.files.length +
      (if e.isDir = false ∧ allowedCheck A e = true then 1 else 0) := by
  by_cases h1 : e.isDir
  · simp [scanStep, h1]
  · by_cases h2 : allowedCheck A e
    · cases hm : e.meta with
      | none => simp [scanStep, h1, h2, hm]
      | some m =>
        by_cases h3 : eligibleTs wm m.ts
        · by_cases h4m : scanKey m e ∈ st.seen <;>
            simp [scanStep, h1, h2, hm, h3, h4m]
        · simp [scanStep, h1, h2, hm, h3]
    · simp [scanStep, h1, h2]

theorem scan_excluded_eq (A : List String) (wm : Nat) (es : List FsEntry) :
    ∀ st : ScanState, ((es.foldl (scanStep A wm) st)).excluded =
      st.excluded ++
        (es.filter (fun e => !e.isDir && !allowedCheck A e)).map
          (fun e => asciiLower e.ext) := by
  induction es with
  | nil => simp
  | cons e es ih =>
    intro st
    rw [List.foldl_cons, ih, scanStep_excluded_eq]
    by_cases h1 : e.isDir = false ∧ allowedCheck A e = false
    · have hcond : (!e.isDir && !allowedCheck A e) = true := by
        simp [h1.1, h1.2]
      rw [if_pos h1]
      simp [List.filter_cons, hcond]
    · have hcond : (!e.isDir && !allowedCheck A e) = false := by
        revert h1
        cases e.isDir <;> cases allowedCheck A e <;> simp
      rw [if_neg h1]
      simp [List.filter_cons, hcond]

theorem scan_resolved_eq (A : List String) (wm : Nat) (es : List FsEntry) :
    ∀ st : ScanState, ((es.foldl (scanStep A wm) st)).resolved =
      st.resolved ++
        (es.filter (fun e => !e.isDir && allowedCheck A e)).map
          (fun e => e.path) := by
  induction es with
  | nil => simp
  | cons e es ih =>
    intro st
    rw [List.foldl_cons, ih, scanStep_resolved_eq]
    by_cases h1 : e.isDir = false ∧ allowedCheck A e = true
    · have hcond : (!e.isDir && allowedCheck A e) = true := by
        simp [h1.1, h1.2]
      rw [if_pos h1]
      simp [List.filter_cons, hcond]
    · have hcond : (!e.isDir && allowedCheck A e) = false := by
        revert h1
        cases e.isDir <;> cases allowedCheck A e <;> simp
      rw [if_neg h1]
      simp [List.filter_cons, hcond]

theorem scan_files_le (A : List String) (wm : Nat) (es : List FsEntry) :
    ∀ st : ScanState, ((es.foldl (scanStep A wm) st)).files.length ≤
      st.files.length +
        (es.filter (fun e => !e.isDir && allowedCheck A e)).length := by
  induction es with
  | nil => simp
  | cons e es ih =>
    intro st
    rw [List.foldl_cons]
    refine le_trans (ih _) ?_
    by_cases h1 : e.isDir = false ∧ allowedCheck A e = true
    · have hcond : (!e.isDir && allowedCheck A e) = true := by
        simp [h1.1, h1.2]
      have hstep := scanStep_files_le A wm st e
      rw [if_pos h1] at hstep
      simp only [List.filter_cons, hcond, if_true, List.length_cons]
      omega
    · have hcond : (!e.isDir && allowedCheck A e) = false := by
        revert h1
        cases e.isDir <;> cases allowedCheck A e <;> simp
      have hstep := scanStep_files_le A wm st e
      rw [if_neg h1] at hstep
      simp only [List.filter_cons, hcond, Bool.false_eq_true, if_false]
      omega

/-- C9: exclusion accounting — the excluded multiset of FindNewPhotos is
exactly one lowered-extension tally per non-directory entry whose extension
fails the case-insensitive allow-check (so its total is N, the number of
disallowed files, and each extension's count is the number of such entries
with that extension), the eligible list has at most as many entries as
there are allowed files, and the entries handed to the metadata resolver
are exactly the allowed non-directory entries — a disallowed entry is never
timestamp-resolved. -/
theorem exclusion_accounting (A : List String) (wm : Nat)
    (es : List FsEntry) :
    (FindNewPhotos A wm es).excluded =
      (es.filter (fun e => !e.isDir && !allowedCheck A e)).map
        (fun e => asciiLower e.ext) ∧
    (FindNewPhotos A wm es).excluded.length =
      (es.filter (fun e => !e.isDir && !allowedCheck A e)).length ∧
    (FindNewPhotos A wm es).files.length ≤
      (es.filter (fun e => !e.isDir && allowedCheck A e)).length ∧
    (FindNewPhotos A wm es).resolved =
      (es.filter (fun e => !e.isDir && allowedCheck A e)).map
        (fun e => e.path) := by
  have h0 : (FindNewPhotos A wm es).excluded =
      (es.filter (fun e => !e.isDir && !allowedCheck A e)).map
        (fun e => asciiLower e.ext) := by
    simpa [initScan] using scan_excluded_eq A wm es initScan
  refine ⟨h0, by rw [h0, List.length_map], ?_, ?_⟩
  · simpa [initScan] using scan_files_le A wm es initScan
  · simpa [initScan] using scan_resolved_eq A wm es initScan
